import Mathlib

/-!
# Verification of the mock-device REPL engine

Shallow embedding of the core of the `mock-device` repository:
the command parser (`mock_device/parse_command.py`), the matcher
primitives (`mock_device/repl/match_based/matchers.py`), the
match-based dispatch loop (`mock_device/repl/match_based/match_based.py`),
the REPL run loop and stack (`mock_device/repl/repl.py`), the
command-registration decorators (`mock_device/repl/command_based.py`),
and the echo handling of the client wrapper (`mock_device/client.py`).

Python strings are modelled as `String` (lines of raw input as `List Char`
so that the character-level lexer is structurally recursive), exceptions
as `Except String`, and `None`-able values as `Option`.
-/

namespace MockDevice

/-- Whitespace characters recognised by Python's `shlex` lexer
(`shlex.whitespace` is the four characters space, tab, CR, LF). -/
def isShlexSpace (c : Char) : Bool :=
  c = ' ' || c = '\t' || c = '\r' || c = '\n'

/-- Whitespace characters removed by Python's `str.strip()` /
`str.rstrip()` (the ASCII whitespace set). -/
def isStripSpace (c : Char) : Bool :=
  c = ' ' || c = '\t' || c = '\n' || c = '\r' || c = '\x0b' || c = '\x0c'

/-- Model of Python `str.strip()` on a list of characters: drop leading
and trailing whitespace. -/
def pyStrip (l : List Char) : List Char :=
  ((l.dropWhile isStripSpace).reverse.dropWhile isStripSpace).reverse

/-- Model of Python `str.rstrip()`: drop trailing whitespace. -/
def pyRstrip (s : String) : String :=
  String.mk (s.data.reverse.dropWhile isStripSpace).reverse

/-- Lexer states of Python's `shlex` in POSIX mode as used by
`shlex.split`: outside quotes, inside single quotes, inside double
quotes, and the two escape states (backslash seen outside quotes /
inside double quotes). -/
inductive LexState where
  | normal
  | single
  | double
  | escNormal
  | escDouble
deriving DecidableEq, Repr

/-- Append a character to the token under construction (tokens are
accumulated in reverse); opens a token if none is in progress. -/
def pushChar (c : Char) (cur : Option (List Char)) : Option (List Char) :=
  some (c :: cur.getD [])

/-- Modelled from Python's standard library (not part of this repository's
sources): the state machine of `shlex.split` in POSIX mode with
whitespace splitting.  `cur = none` means no token is in progress; a
quote opens an (initially empty) token, so empty quotes yield an empty
token.  Unbalanced quoting fails with `"No closing quotation"`, a
trailing backslash with `"No escaped character"`, exactly as the
`ValueError`s raised by `shlex`. -/
def shlexSplitAux : List Char → LexState → Option (List Char) → Except String (List String)
  | [], .normal, none => .ok []
  | [], .normal, some tok => .ok [String.mk tok.reverse]
  | [], .single, _ => .error "No closing quotation"
  | [], .double, _ => .error "No closing quotation"
  | [], .escNormal, _ => .error "No escaped character"
  | [], .escDouble, _ => .error "No escaped character"
  | c :: cs, .normal, cur =>
    if isShlexSpace c then
      match cur with
      | none => shlexSplitAux cs .normal none
      | some tok => (shlexSplitAux cs .normal none).map (fun ts => String.mk tok.reverse :: ts)
    else if c = '\'' then shlexSplitAux cs .single (some (cur.getD []))
    else if c = '"' then shlexSplitAux cs .double (some (cur.getD []))
    else if c = '\\' then shlexSplitAux cs .escNormal cur
    else shlexSplitAux cs .normal (pushChar c cur)
  | c :: cs, .single, cur =>
    if c = '\'' then shlexSplitAux cs .normal cur
    else shlexSplitAux cs .single (pushChar c cur)
  | c :: cs, .double, cur =>
    if c = '"' then shlexSplitAux cs .normal cur
    else if c = '\\' then shlexSplitAux cs .escDouble cur
    else shlexSplitAux cs .double (pushChar c cur)
  | _c :: cs, .escNormal, cur => shlexSplitAux cs .normal (pushChar _c cur)
  | c :: cs, .escDouble, cur =>
    if c = '"' || c = '\\' then shlexSplitAux cs .double (pushChar c cur)
    else shlexSplitAux cs .double (pushChar c (pushChar '\\' cur))

/-- `shlex.split(s)`: run the lexer from the initial state. -/
def shlexSplit (cs : List Char) : Except String (List String) :=
  shlexSplitAux cs .normal none

/-- Model of `parse_command` (`mock_device/parse_command.py`):
`shlex.split(line.strip())`, then the first token is the command word
and the rest are the arguments.  A `ValueError` from `shlex` propagates
as `.error`; indexing `[0]` into an empty token list raises
`IndexError`. -/
def parse_command (line : List Char) : Except String (String × List String) :=
  match shlexSplit (pyStrip line) with
  | .error e => .error e
  | .ok [] => .error "IndexError"
  | .ok (w :: args) => .ok (w, args)

/-- A matcher is a predicate over (command word, arguments), as in
`match_based.py`. -/
abbrev Matcher := String → List String → Bool

/-- Model of `match_on_cmd` (`matchers.py`): the built matcher returns
`cmd == expected_cmd`, ignoring the arguments. -/
def match_on_cmd (expected_cmd : String) : Matcher :=
  fun cmd _args => cmd == expected_cmd

/-- Model of `match_on_cmd_starts_with` (`matchers.py`): the built
matcher compares `([cmd] + args)[:len(expected_cmd)]` with
`expected_cmd`. -/
def match_on_cmd_starts_with (expected_cmd : List String) : Matcher :=
  fun cmd args =>
    let entire_cmd := cmd :: args
    let parts_to_match := entire_cmd.take expected_cmd.length
    parts_to_match == expected_cmd

/-- Outcome of dispatching one input line in `MatchBasedRepl.handle_command`:
either a single handler (an opaque value of type `α`) was invoked with
the word and arguments, or the `unknown_command` fallback was. -/
inductive DispatchOutcome (α : Type) where
  | handled : α → String → List String → DispatchOutcome α
  | fallback : String → List String → DispatchOutcome α
deriving DecidableEq, Repr

/-- Model of `MatchBasedRepl.handle_command` (`match_based.py`): scan
the registered `(matcher, handler)` pairs in list order; the first pair
whose matcher accepts `(cmd, args)` has its handler invoked and the scan
stops (`break`); if no matcher accepts, the `unknown_command` fallback
runs (the `for`/`else`). -/
def handle_command {α : Type} (matchers : List (Matcher × α)) (cmd : String)
    (args : List String) : DispatchOutcome α :=
  match matchers with
  | [] => .fallback cmd args
  | (m, h) :: rest =>
    if m cmd args then .handled h cmd args else handle_command rest cmd args

/-- The loop-control state of a `Repl` instance (`repl.py`): the
`running` flag read by the `while` loop. -/
structure ReplState where
  running : Bool
deriving DecidableEq, Repr

/-- Model of `Repl.exit` (`repl.py`): sets `running` to `False`. -/
def Repl.exit (s : ReplState) : ReplState :=
  { s with running := false }

/-- What one iteration of `Repl.run` did with the line it read: skipped
a blank line, stopped the loop via the exit command, or dispatched to
`handle_command`. -/
inductive StepResult (α : Type) where
  | blank : StepResult α
  | exited : StepResult α
  | dispatched : DispatchOutcome α → StepResult α
deriving DecidableEq, Repr

/-- Model of the body of the `while` loop in `Repl.run` (`repl.py`) for
one raw input line, specialised to a `MatchBasedRepl` (so the
`handle_command` override of `match_based.py` is the dispatcher):
strip the line, skip it if blank, parse it (a parse error propagates —
there is no `try`/`except` around `parse_command`), stop the loop when
the configured exit command is set and equals the command word, and
otherwise dispatch. -/
def runStep {α : Type} (exit_command : Option String) (matchers : List (Matcher × α))
    (rawLine : List Char) : Except String (StepResult α) :=
  let line := pyStrip rawLine
  if line = [] then .ok .blank
  else
    match parse_command line with
    | .error e => .error e
    | .ok (command_word, args) =>
      match exit_command with
      | some ec =>
        if command_word == ec then .ok .exited
        else .ok (.dispatched (handle_command matchers command_word args))
      | none => .ok (.dispatched (handle_command matchers command_word args))

/-- One level of the REPL stack as seen by `Repl.exit_to_repl_class`:
its runtime class (a tag) and its `running` flag.  The stack itself is
the parent back-reference chain, innermost loop first. -/
structure LoopNode where
  cls : String
  running : Bool
deriving DecidableEq, Repr

/-- `current.exit()` on one stack node. -/
def LoopNode.exit (n : LoopNode) : LoopNode :=
  { n with running := false }

/-- Model of `Repl.exit_to_repl_class` (`repl.py`): walk the parent
chain from the current loop; while the current loop's class does not
satisfy `isInst` (the `isinstance(current, clazz)` test, a predicate so
that subclassing is covered), call `exit()` on it and move to the
parent; stop at the first loop whose class satisfies `isInst`, leaving
it and everything above untouched. -/
def exit_to_repl_class (isInst : String → Bool) : List LoopNode → List LoopNode
  | [] => []
  | current :: rest =>
    if isInst current.cls then current :: rest
    else current.exit :: exit_to_repl_class isInst rest

/-- The metadata attached by the `@handler` decorator
(`command_based.py`) that the `@command` decorator consumes: the method
name it is attached to (the key `inspect.getmembers` sorts by) and the
optional explicit order.  The matcher and the method body do not affect
registration order, so they are not carried here. -/
structure HandlerEntry where
  methodName : String
  order : Option Int
deriving DecidableEq, Repr

/-- Modelled from Python's standard library (not part of this
repository's sources): `inspect.getmembers` returns the matching
members as `(name, value)` pairs sorted by name. -/
def getmembers (l : List HandlerEntry) : List HandlerEntry :=
  l.mergeSort (fun a b => decide (a.methodName ≤ b.methodName))

/-- The sort key of `sorted(handlers_with_data, key=lambda entry: entry[2].order)`
in `command` (`command_based.py`); the sort only runs when every entry's
`order` is a `some`, so the `getD` default is never consulted there. -/
def orderLe (a b : HandlerEntry) : Bool :=
  decide (a.order.getD 0 ≤ b.order.getD 0)

/-- Model of the `command` class decorator (`command_based.py`): collect
the handler-decorated methods via `inspect.getmembers`, then
  * if all of them carry an explicit order, sort them by that order;
  * if only some do, raise (`Exception`);
  * otherwise keep the `getmembers` enumeration order.
The resulting list is the order in which `_Wrapped.register_handlers`
registers the pairs with the dispatch list. -/
def command (handlers : List HandlerEntry) : Except String (List HandlerEntry) :=
  let handlers_with_data := getmembers handlers
  let all_handlers_order_value := handlers_with_data.map (fun e => e.order)
  let any_have_order := all_handlers_order_value.any (fun o => o.isSome)
  let all_have_order := all_handlers_order_value.all (fun o => o.isSome)
  if all_have_order then .ok (handlers_with_data.mergeSort orderLe)
  else if any_have_order then
    .error "if you mark any handler with an order, you must mark all with an order"
  else .ok handlers_with_data

/-- Model of `CommandBasedRepl.register_handlers` flattening every
registered command's pairs, in command-registration order, into the
dispatch list.  Each command's own pair order is what its `@command`
decoration produced; a decoration error means the REPL class is never
built, so no dispatch list exists and no `run()` can start. -/
def register_commands (cmds : List (List HandlerEntry)) : Except String (List HandlerEntry) :=
  match cmds with
  | [] => .ok []
  | c :: rest =>
    match command c with
    | .error e => .error e
    | .ok hs =>
      match register_commands rest with
      | .error e => .error e
      | .ok t => .ok (hs ++ t)

/-- The state of the `Client` wrapper (`client.py`) that its methods
touch: the cached `echo` flag, the calls forwarded to
`process.channel.set_echo`, the pending input lines of the process and
the text written so far. -/
structure ClientState where
  echo : Bool
  channelEchoCalls : List Bool
  inputLines : List String
  outputText : List String
deriving DecidableEq, Repr

/-- Model of `Client.write`: append the text to the output stream. -/
def Client.write (s : ClientState) (text : String) : ClientState :=
  { s with outputText := s.outputText ++ [text] }

/-- Model of `Client.set_echo` (`client.py`): remember the old value,
update the cached flag and forward to the channel only when the value
changes, and return the old value. -/
def Client.set_echo (s : ClientState) (echo : Bool) : Bool × ClientState :=
  let old_value := s.echo
  if echo != s.echo then
    (old_value, { s with echo := echo, channelEchoCalls := s.channelEchoCalls ++ [echo] })
  else (old_value, s)

/-- Model of `Client.readline`: pop the next pending input line (an
exhausted stream reads as the empty string, the way a closed `stdin`
reads at EOF). -/
def Client.readline (s : ClientState) : String × ClientState :=
  match s.inputLines with
  | [] => ("", s)
  | l :: rest => (l, { s with inputLines := rest })

/-- Model of `Client.prompt` (`client.py`): write the prompt text, save
the previous echo value while setting the requested one, read a line,
restore the saved echo value, and return the line right-stripped. -/
def Client.prompt (s : ClientState) (text : String) (echo : Bool) : String × ClientState :=
  let s1 := Client.write s text
  let pe := Client.set_echo s1 echo
  let r := Client.readline pe.2
  let fin := Client.set_echo r.2 pe.1
  (pyRstrip r.1, fin.2)

/-! ## Theorems -/

/-- Claim C7: `match_on_cmd expected` returns true iff the command word
equals `expected` exactly, and the argument list never affects the
result: any two argument lists give the same answer. -/
theorem match_on_cmd_spec (expected cmd : String) (a1 a2 : List String) :
    (match_on_cmd expected cmd a1 = true ↔ cmd = expected)
    ∧ match_on_cmd expected cmd a1 = match_on_cmd expected cmd a2 :=
  ⟨by simp [match_on_cmd], rfl⟩

/-- Claim C6: `match_on_cmd_starts_with expected` returns true iff the
first `expected.length` elements of `[word] ++ args` equal `expected`
exactly; it returns false whenever `[word] ++ args` is shorter than
`expected`; and once the sequence is at least as long as `expected`,
extra trailing arguments never affect the result. -/
theorem match_on_cmd_starts_with_spec (expected : List String) (cmd : String)
    (args : List String) :
    (match_on_cmd_starts_with expected cmd args = true ↔
      (cmd :: args).take expected.length = expected)
    ∧ ((cmd :: args).length < expected.length →
      match_on_cmd_starts_with expected cmd args = false)
    ∧ (∀ extra : List String, expected.length ≤ (cmd :: args).length →
      match_on_cmd_starts_with expected cmd (args ++ extra) =
        match_on_cmd_starts_with expected cmd args) := by
  refine ⟨by simp [match_on_cmd_starts_with], ?_, ?_⟩
  · intro hlt
    have hne : (cmd :: args).take expected.length ≠ expected := by
      intro heq
      have hlen := congrArg List.length heq
      simp [List.length_take, List.length_cons] at hlen hlt
      omega
    simpa [match_on_cmd_starts_with] using hne
  · intro extra hle
    have hsplit : cmd :: (args ++ extra) = (cmd :: args) ++ extra := rfl
    simp only [match_on_cmd_starts_with, hsplit]
    rw [List.take_append_of_le_length hle]

/-- Claim C10: `Client.prompt` restores the echo setting: after any call,
the client's `echo` flag equals its value before the call, whether echo
was requested on or off. -/
theorem prompt_preserves_echo (s : ClientState) (text : String) (echo : Bool) :
    ((Client.prompt s text echo).2).echo = s.echo := by
  obtain ⟨e, cc, il, ot⟩ := s
  cases e <;> cases echo <;> cases il <;>
    simp [Client.prompt, Client.write, Client.set_echo, Client.readline]

/-- Claim C4: `exit_to_repl_class` exits (sets `running := false` on)
exactly the loops strictly before the first loop in the parent chain
whose class matches the target, leaves that loop and everything above it
untouched, and exits the whole chain when no loop matches; in particular
on a stack of depth 3 where only the root matches, the two non-root
loops are exited and the root stays running. -/
theorem exit_to_repl_class_spec :
    (∀ (isInst : String → Bool) (chain : List LoopNode),
      exit_to_repl_class isInst chain =
        (chain.takeWhile (fun n => !(isInst n.cls))).map LoopNode.exit
          ++ chain.dropWhile (fun n => !(isInst n.cls)))
    ∧ exit_to_repl_class (fun c => c == "RootRepl")
        [⟨"InnerRepl", true⟩, ⟨"MidRepl", true⟩, ⟨"RootRepl", true⟩]
        = [⟨"InnerRepl", false⟩, ⟨"MidRepl", false⟩, ⟨"RootRepl", true⟩] := by
  constructor
  · intro isInst chain
    induction chain with
    | nil => rfl
    | cons c rest ih =>
      cases h : isInst c.cls with
      | true => simp [exit_to_repl_class, List.takeWhile_cons, List.dropWhile_cons, h]
      | false => simp [exit_to_repl_class, List.takeWhile_cons, List.dropWhile_cons, h, ih]
  · decide

/-- Claim C2 (exhibit of the divergence): on the line `a "b` — unbalanced
double quoting — the run-loop body propagates the lexer's
`"No closing quotation"` error out of `run` instead of routing the line
to the unknown-command fallback: there is no `try`/`except` around
`parse_command` in `Repl.run`. -/
theorem run_parse_error_propagates :
    runStep (some "exit") ([] : List (Matcher × Nat)) "a \"b".data
      = .error "No closing quotation" := rfl

/-- Claim C1: matchers are evaluated in registration order; if pair `i`
matches and no earlier pair does, exactly handler `i` is invoked with
the word and arguments (no later handler, no fallback); if no pair
matches, the unknown-command fallback is invoked. -/
theorem handle_command_first_match {α : Type} (pairs : List (Matcher × α))
    (cmd : String) (args : List String) :
    (∀ i (hi : i < pairs.length),
      (pairs.get ⟨i, hi⟩).1 cmd args = true →
      (∀ j (hj : j < pairs.length), j < i → (pairs.get ⟨j, hj⟩).1 cmd args = false) →
      handle_command pairs cmd args = .handled (pairs.get ⟨i, hi⟩).2 cmd args)
    ∧ ((∀ i (hi : i < pairs.length), (pairs.get ⟨i, hi⟩).1 cmd args = false) →
      handle_command pairs cmd args = .fallback cmd args) := by
  induction pairs with
  | nil =>
    exact ⟨fun i hi => absurd hi (Nat.not_lt_zero i), fun _ => rfl⟩
  | cons p rest ih =>
    obtain ⟨m, hd⟩ := p
    constructor
    · intro i hi hm hb
      match i with
      | 0 =>
        have hm0 : m cmd args = true := hm
        simp [handle_command, hm0]
      | Nat.succ i =>
        have h0 : m cmd args = false :=
          hb 0 (Nat.succ_pos _) (Nat.succ_pos _)
        have hrec := ih.1 i (Nat.lt_of_succ_lt_succ hi) hm
          (fun j hj hji => hb (j + 1) (Nat.succ_lt_succ hj) (Nat.succ_lt_succ hji))
        simpa [handle_command, h0] using hrec
    · intro hall
      have h0 : m cmd args = false := hall 0 (Nat.succ_pos _)
      have hrec := ih.2 (fun i hi => hall (i + 1) (Nat.succ_lt_succ hi))
      simpa [handle_command, h0] using hrec

/-- Witness for C1: in a two-pair dispatch list whose pairs both match
the word `enable`, only the first handler runs; on an unmatched word the
fallback runs. -/
theorem handle_command_first_match_witness :
    handle_command [(match_on_cmd "enable", (1 : Nat)),
        (match_on_cmd_starts_with ["enable"], 2)] "enable" ["x"]
      = .handled 1 "enable" ["x"]
    ∧ handle_command [(match_on_cmd "enable", (1 : Nat)),
        (match_on_cmd_starts_with ["enable"], 2)] "nope" []
      = .fallback "nope" [] := by
  constructor
  · exact (handle_command_first_match _ "enable" ["x"]).1 0 (by decide) rfl
      (fun j hj hji => absurd hji (Nat.not_lt_zero j))
  · exact (handle_command_first_match _ "nope" []).2
      (fun i hi => by
        match i, hi with
        | 0, _ => rfl
        | 1, _ => rfl)

/-- Claim C8: when the configured exit command is set and the parsed
command word of the line equals it, one run-loop iteration stops the
loop (`exit()` sets `running` to false) and neither matcher dispatch nor
the unknown-command fallback is invoked for that line, whatever matchers
are registered. -/
theorem run_exit_command_preempts {α : Type} (matchers : List (Matcher × α))
    (s : ReplState) (line : List Char) (exitw : String) (args : List String)
    (h : parse_command (pyStrip line) = .ok (exitw, args)) :
    runStep (some exitw) matchers line = .ok .exited
    ∧ (Repl.exit s).running = false := by
  refine ⟨?_, rfl⟩
  have hne : ¬(pyStrip line = []) := by
    intro hempty
    rw [hempty] at h
    exact Except.noConfusion h
  simp only [runStep]
  rw [if_neg hne, h]
  simp

/-- Witness for C8: the line `exit` with exit command `exit` stops the
loop even though a registered matcher matches the word `exit`. -/
theorem run_exit_command_preempts_witness :
    runStep (some "exit") [(match_on_cmd "exit", (1 : Nat))] "exit".data
      = .ok .exited
    ∧ (Repl.exit ⟨true⟩).running = false :=
  run_exit_command_preempts [(match_on_cmd "exit", (1 : Nat))] ⟨true⟩
    "exit".data "exit" [] rfl

/-- Witness for C6: with `expected = ["a","b"]`, extra trailing
arguments beyond the expected length do not change the (true) result,
and a sequence shorter than `expected` gives false. -/
theorem match_on_cmd_starts_with_witness :
    match_on_cmd_starts_with ["a", "b"] "a" (["b", "c"] ++ ["z"])
      = match_on_cmd_starts_with ["a", "b"] "a" ["b", "c"]
    ∧ match_on_cmd_starts_with ["a", "b"] "a" [] = false :=
  ⟨(match_on_cmd_starts_with_spec ["a", "b"] "a" ["b", "c"]).2.2 ["z"] (by decide),
   (match_on_cmd_starts_with_spec ["a", "b"] "a" []).2.1 (by decide)⟩

/-- `getmembers` permutes its input. -/
lemma getmembers_perm (c : List HandlerEntry) : (getmembers c).Perm c :=
  List.mergeSort_perm c _

/-- `getmembers` output is sorted by method name. -/
lemma getmembers_sorted (c : List HandlerEntry) :
    (getmembers c).Pairwise (fun a b => a.methodName ≤ b.methodName) := by
  have htrans : ∀ a b c2 : HandlerEntry,
      (fun x y : HandlerEntry => decide (x.methodName ≤ y.methodName)) a b = true →
      (fun x y : HandlerEntry => decide (x.methodName ≤ y.methodName)) b c2 = true →
      (fun x y : HandlerEntry => decide (x.methodName ≤ y.methodName)) a c2 = true := by
    intro a b c2 hab hbc
    simp only [decide_eq_true_eq] at *
    exact le_trans hab hbc
  have htotal : ∀ a b : HandlerEntry,
      ((fun x y : HandlerEntry => decide (x.methodName ≤ y.methodName)) a b
        || (fun x y : HandlerEntry => decide (x.methodName ≤ y.methodName)) b a) = true := by
    intro a b
    simp only [Bool.or_eq_true, decide_eq_true_eq]
    exact le_total a.methodName b.methodName
  have hs := List.sorted_mergeSort htrans htotal c
  exact hs.imp (fun hab => by simpa using hab)

/-- When no handler declares an order, `command` succeeds and keeps the
`getmembers` enumeration order. -/
lemma command_of_all_none (c : List HandlerEntry)
    (h : ∀ e ∈ c, e.order = none) : command c = .ok (getmembers c) := by
  cases hc : c with
  | nil => simp [command, getmembers]
  | cons e0 rest =>
    subst hc
    have he0 : e0 ∈ getmembers (e0 :: rest) :=
      (getmembers_perm _).mem_iff.mpr (List.mem_cons_self _ _)
    have hmemnone : ∀ e ∈ getmembers (e0 :: rest), e.order = none :=
      fun e he => h e ((getmembers_perm _).mem_iff.mp he)
    have hall : ((getmembers (e0 :: rest)).map (fun x => x.order)).all
        (fun o => o.isSome) = false := by
      rw [Bool.eq_false_iff]
      intro hcontra
      rw [List.all_eq_true] at hcontra
      have := hcontra e0.order (List.mem_map_of_mem _ he0)
      rw [hmemnone e0 he0] at this
      exact Bool.noConfusion this
    have hany : ((getmembers (e0 :: rest)).map (fun x => x.order)).any
        (fun o => o.isSome) = false := by
      rw [List.any_eq_false]
      intro o ho
      obtain ⟨e, he, rfl⟩ := List.mem_map.mp ho
      simp [hmemnone e he]
    simp [command, hall, hany]

/-- Entries sorted weakly by name with pairwise-distinct names are
sorted strictly. -/
lemma pairwise_name_lt (l : List HandlerEntry)
    (hs : l.Pairwise (fun a b => a.methodName ≤ b.methodName))
    (hn : (l.map (fun e => e.methodName)).Nodup) :
    l.Pairwise (fun a b => a.methodName < b.methodName) := by
  have hne : l.Pairwise (fun a b => a.methodName ≠ b.methodName) :=
    List.pairwise_map.mp hn
  exact (hs.and hne).imp (fun h => lt_of_le_of_ne h.1 h.2)

instance : IsAntisymm HandlerEntry (fun a b => a.methodName < b.methodName) :=
  ⟨fun _ _ h1 h2 => absurd h2 (lt_asymm h1)⟩

/-- Claim C3: a command with at least one explicitly ordered handler and
at least one unordered handler fails its `@command` decoration with the
configuration error, and therefore the whole command-registration pass
of any REPL containing it fails — no dispatch list is ever built, so
the error precedes any `run()` call and any dispatch. -/
theorem mixed_order_is_registration_error (cmds : List (List HandlerEntry))
    (c : List HandlerEntry) (hc : c ∈ cmds)
    (hsome : ∃ e ∈ c, e.order.isSome) (hnone : ∃ e ∈ c, e.order = none) :
    command c = .error "if you mark any handler with an order, you must mark all with an order"
    ∧ ∃ msg, register_commands cmds = .error msg := by
  obtain ⟨e, he, hes⟩ := hsome
  obtain ⟨e', he', hen⟩ := hnone
  have he2 : e ∈ getmembers c := (getmembers_perm c).mem_iff.mpr he
  have he2' : e' ∈ getmembers c := (getmembers_perm c).mem_iff.mpr he'
  have hany : ((getmembers c).map (fun x => x.order)).any (fun o => o.isSome) = true := by
    rw [List.any_eq_true]
    exact ⟨e.order, List.mem_map_of_mem _ he2, hes⟩
  have hall : ((getmembers c).map (fun x => x.order)).all (fun o => o.isSome) = false := by
    rw [Bool.eq_false_iff]
    intro hcontra
    rw [List.all_eq_true] at hcontra
    have := hcontra e'.order (List.mem_map_of_mem _ he2')
    rw [hen] at this
    exact Bool.noConfusion this
  have hcmd : command c =
      .error "if you mark any handler with an order, you must mark all with an order" := by
    simp [command, hall, hany]
  refine ⟨hcmd, ?_⟩
  induction cmds with
  | nil => cases hc
  | cons d rest ih =>
    rcases List.mem_cons.mp hc with rfl | hmem
    · exact ⟨"if you mark any handler with an order, you must mark all with an order",
        by simp [register_commands, hcmd]⟩
    · match hcmd2 : command d with
      | .error e2 => exact ⟨e2, by simp [register_commands, hcmd2]⟩
      | .ok hs =>
        obtain ⟨msg, hmsg⟩ := ih hmem
        exact ⟨msg, by simp [register_commands, hcmd2, hmsg]⟩

/-- Witness for C3: a command with one ordered and one unordered handler
is rejected at registration. -/
theorem mixed_order_is_registration_error_witness :
    command [⟨"do_a", some 1⟩, ⟨"do_b", none⟩]
      = .error "if you mark any handler with an order, you must mark all with an order"
    ∧ ∃ msg, register_commands [[⟨"do_a", some 1⟩, ⟨"do_b", none⟩]] = .error msg :=
  mixed_order_is_registration_error [[⟨"do_a", some 1⟩, ⟨"do_b", none⟩]]
    [⟨"do_a", some 1⟩, ⟨"do_b", none⟩] (by decide)
    ⟨⟨"do_a", some 1⟩, by decide, by decide⟩
    ⟨⟨"do_b", none⟩, by decide, rfl⟩

/-- Claim C5: when every handler of a command declares an explicit
order, `@command` succeeds and lines the pairs up in ascending declared
order (a permutation of the declared pairs, sorted by the order
values), regardless of declaration order. -/
theorem all_ordered_ascending (c : List HandlerEntry)
    (h : ∀ e ∈ c, e.order.isSome) :
    ∃ out, command c = .ok out
      ∧ out.Pairwise (fun a b => a.order.getD 0 ≤ b.order.getD 0)
      ∧ out.Perm c := by
  have hall : ((getmembers c).map (fun x => x.order)).all (fun o => o.isSome) = true := by
    rw [List.all_eq_true]
    intro o ho
    obtain ⟨e, he, rfl⟩ := List.mem_map.mp ho
    exact h e ((getmembers_perm c).mem_iff.mp he)
  refine ⟨(getmembers c).mergeSort orderLe, by simp [command, hall], ?_, ?_⟩
  · have htrans : ∀ a b c2 : HandlerEntry,
        orderLe a b = true → orderLe b c2 = true → orderLe a c2 = true := by
      intro a b c2 hab hbc
      simp only [orderLe, decide_eq_true_eq] at *
      omega
    have htotal : ∀ a b : HandlerEntry, (orderLe a b || orderLe b a) = true := by
      intro a b
      simp only [orderLe, Bool.or_eq_true, decide_eq_true_eq]
      omega
    have hs := List.sorted_mergeSort htrans htotal (getmembers c)
    exact hs.imp (fun hab => by simpa [orderLe] using hab)
  · exact (List.mergeSort_perm (getmembers c) orderLe).trans (getmembers_perm c)

/-- Witness for C5: two handlers declared in descending order come out
ascending. -/
theorem all_ordered_ascending_witness :
    ∃ out, command [⟨"do_b", some 2⟩, ⟨"do_a", some 1⟩] = .ok out
      ∧ out.Pairwise (fun a b => a.order.getD 0 ≤ b.order.getD 0)
      ∧ out.Perm [⟨"do_b", some 2⟩, ⟨"do_a", some 1⟩] :=
  all_ordered_ascending [⟨"do_b", some 2⟩, ⟨"do_a", some 1⟩] (by decide)

/-- Claim C9: when no handler of a command declares an order, `@command`
keeps the `inspect.getmembers` enumeration, which is alphabetical by
method name; so the registration order is a sorted permutation of the
declared pairs and is determined by the method names alone — any
declaration order of the same (distinctly named) handlers registers
identically. -/
theorem unordered_alphabetical (c c' : List HandlerEntry)
    (h : ∀ e ∈ c, e.order = none) (hperm : c'.Perm c)
    (hnodup : (c.map (fun e => e.methodName)).Nodup) :
    command c = .ok (getmembers c)
    ∧ (getmembers c).Pairwise (fun a b => a.methodName ≤ b.methodName)
    ∧ (getmembers c).Perm c
    ∧ command c' = command c := by
  have h' : ∀ e ∈ c', e.order = none := fun e he => h e (hperm.mem_iff.mp he)
  have hnodup' : ((getmembers c).map (fun e => e.methodName)).Nodup :=
    (hnodup.perm ((getmembers_perm c).map _).symm)
  have hnodupc' : ((getmembers c').map (fun e => e.methodName)).Nodup := by
    refine hnodup.perm ?_
    exact (((getmembers_perm c').map _).trans (hperm.map _)).symm
  have hkey : getmembers c' = getmembers c := by
    have hp : (getmembers c').Perm (getmembers c) :=
      (getmembers_perm c').trans (hperm.trans (getmembers_perm c).symm)
    have hs1 : (getmembers c').Pairwise (fun a b => a.methodName < b.methodName) :=
      pairwise_name_lt _ (getmembers_sorted c') hnodupc'
    have hs2 : (getmembers c).Pairwise (fun a b => a.methodName < b.methodName) :=
      pairwise_name_lt _ (getmembers_sorted c) hnodup'
    exact List.eq_of_perm_of_sorted hp hs1 hs2
  refine ⟨command_of_all_none c h, getmembers_sorted c, getmembers_perm c, ?_⟩
  rw [command_of_all_none c' h', command_of_all_none c h, hkey]

/-- Witness for C9: the same two unordered handlers declared in either
order register identically, alphabetically by method name. -/
theorem unordered_alphabetical_witness :
    command [⟨"show_b", none⟩, ⟨"show_a", none⟩]
      = .ok (getmembers [⟨"show_b", none⟩, ⟨"show_a", none⟩])
    ∧ (getmembers [⟨"show_b", none⟩, ⟨"show_a", none⟩]).Pairwise
        (fun a b => a.methodName ≤ b.methodName)
    ∧ (getmembers [⟨"show_b", none⟩, ⟨"show_a", none⟩]).Perm
        [⟨"show_b", none⟩, ⟨"show_a", none⟩]
    ∧ command [⟨"show_a", none⟩, ⟨"show_b", none⟩]
      = command [⟨"show_b", none⟩, ⟨"show_a", none⟩] :=
  unordered_alphabetical [⟨"show_b", none⟩, ⟨"show_a", none⟩]
    [⟨"show_a", none⟩, ⟨"show_b", none⟩] (by decide) (by decide) (by decide)

end MockDevice
